import Mathlib

/-!
Shallow embedding of the geo→Esri geometry conversion module of
`serde_esri` (`src/from_geo.rs`), together with the pieces of the external
`geo` / `geo_types` crates that the module invokes (ring winding-order
inspection and per-ring reorientation, `Rect::to_polygon`,
`Triangle::to_polygon`), and the target geometry model from
`crate::geometry`.  Coordinate components are modelled as exact rationals:
the conversions perform no arithmetic on coordinates, and the winding test
used by `geo` is an exact sign computation on the inputs.
-/

namespace SerdeEsri

/-- Source-model planar coordinate (`geo_types::Coord`), components exact. -/
structure Coord where
  x : ℚ
  y : ℚ
deriving DecidableEq

/-- Source-model `geo_types::LineString`: an ordered list of coordinates. -/
abbrev LineString := List Coord

/-- Source-model `geo_types::Point`: a single coordinate. -/
structure Point where
  coord : Coord
deriving DecidableEq

/-- Source-model `geo_types::MultiPoint`: an ordered list of points. -/
abbrev MultiPoint := List Point

/-- Source-model `geo_types::Line`: a two-vertex segment. -/
structure Line where
  start : Coord
  end_ : Coord
deriving DecidableEq

/-- Source-model `geo_types::MultiLineString`. -/
abbrev MultiLineString := List LineString

/-- Source-model `geo_types::Polygon`: one exterior ring plus zero or more
interior (hole) rings.  In `geo` the rings of a constructed polygon are
closed (first coordinate equals last); the embedding quantifies over
arbitrary coordinate lists, a superset of the constructible values. -/
structure Polygon where
  exterior : LineString
  interiors : List LineString
deriving DecidableEq

/-- Source-model `geo_types::MultiPolygon`. -/
abbrev MultiPolygon := List Polygon

/-- Source-model `geo_types::Rect`: axis-aligned box held as its
componentwise minimum and maximum corners. -/
structure Rect where
  min : Coord
  max : Coord
deriving DecidableEq

/-- Source-model `geo_types::Triangle`: three vertices. -/
structure Triangle where
  v0 : Coord
  v1 : Coord
  v2 : Coord
deriving DecidableEq

/-- Source-model `geo_types::Geometry`: the tagged union over all source
variants, including the heterogeneous `GeometryCollection`. -/
inductive Geometry where
  | point (g : Point)
  | line (g : Line)
  | lineString (g : LineString)
  | polygon (g : Polygon)
  | multiPoint (g : MultiPoint)
  | multiLineString (g : MultiLineString)
  | multiPolygon (g : MultiPolygon)
  | geometryCollection (gs : List Geometry)
  | rect (g : Rect)
  | triangle (g : Triangle)

/-- Ring winding direction (`geo::WindingOrder`). -/
inductive Winding where
  | cw
  | ccw
deriving DecidableEq

/-- One term of the shoelace sum for a pair of consecutive coordinates. -/
def cross (a b : Coord) : ℚ := a.x * b.y - b.x * a.y

/-- Twice the signed area of a ring: the shoelace sum over consecutive
coordinate pairs (for a closed ring, where the last coordinate repeats the
first, this is the full cyclic shoelace sum). -/
def signedArea2 : List Coord → ℚ
  | a :: b :: rest => cross a b + signedArea2 (b :: rest)
  | _ => 0

/-- Winding direction of a ring, per the specification's directional test:
positive signed area (with x increasing rightward and y increasing upward)
is counter-clockwise, negative is clockwise, zero (a degenerate ring) has
no winding direction.  This models `geo`'s `winding_order`, which the spec
describes as "computed via signed area or an equivalent directional test". -/
def windingOrder (l : List Coord) : Option Winding :=
  if 0 < signedArea2 l then some Winding.ccw
  else if signedArea2 l < 0 then some Winding.cw
  else none

/-- `geo`'s `make_cw_winding` / `make_ccw_winding`: reverse the ring's
point order exactly when its detected winding is opposite to the target;
a ring with no detectable winding is left unchanged. -/
def makeWinding (w : Winding) (l : List Coord) : List Coord :=
  match windingOrder l with
  | some w' => if w' = w then l else l.reverse
  | none => l

/-- `geo`'s `Polygon::orient(Direction::Reversed)`: exterior ring made
clockwise, every interior ring made counter-clockwise, each ring checked
and conditionally reversed independently. -/
def orientPolygonReversed (p : Polygon) : Polygon :=
  { exterior := makeWinding Winding.cw p.exterior
    interiors := p.interiors.map (makeWinding Winding.ccw) }

/-- The rings of a polygon in iteration order: exterior first, then the
interior rings in their stored order (`rings()` on a polygon). -/
def ringsOf (p : Polygon) : List LineString := p.exterior :: p.interiors

/-- `geo`'s `Rect::to_polygon`: the four corners as a closed ring, no
holes. -/
def rectToPolygon (r : Rect) : Polygon :=
  { exterior := [r.min, ⟨r.min.x, r.max.y⟩, r.max, ⟨r.max.x, r.min.y⟩, r.min]
    interiors := [] }

/-- `geo`'s `Triangle::to_polygon`: the three vertices as a closed ring,
no holes. -/
def triangleToPolygon (t : Triangle) : Polygon :=
  { exterior := [t.v0, t.v1, t.v2, t.v0]
    interiors := [] }

/-- Modelled from the spec: `crate::geometry`'s `EsriCoord<2>` is not among
the provided sources; per §3 it is a fixed-length numeric tuple, here of
length 2 with components `c0` (x) and `c1` (y). -/
structure EsriCoord where
  c0 : ℚ
  c1 : ℚ
deriving DecidableEq

/-- Modelled from the spec: `crate::geometry`'s `EsriLineString<2>`, an
ordered sequence of coordinates (a path or ring). -/
abbrev EsriLineString := List EsriCoord

/-- Modelled from the spec: target point geometry — one coordinate plus
optional z, m and spatial-reference fields. -/
structure EsriPoint where
  x : ℚ
  y : ℚ
  z : Option ℚ
  m : Option ℚ
  spatialReference : Option Nat
deriving DecidableEq

/-- Modelled from the spec: target multipoint geometry. -/
structure EsriMultiPoint where
  hasZ : Option Bool
  hasM : Option Bool
  points : List EsriCoord
  spatialReference : Option Nat
deriving DecidableEq

/-- Modelled from the spec: target polyline geometry, an ordered sequence
of paths. -/
structure EsriPolyline where
  hasZ : Option Bool
  hasM : Option Bool
  paths : List EsriLineString
  spatialReference : Option Nat
deriving DecidableEq

/-- Modelled from the spec: target polygon geometry, an ordered flat
sequence of rings. -/
structure EsriPolygon where
  hasZ : Option Bool
  hasM : Option Bool
  rings : List EsriLineString
  spatialReference : Option Nat
deriving DecidableEq

/-- Modelled from the spec: the tagged union of the four target geometry
kinds (`EsriGeometry<2>`). -/
inductive EsriGeometry where
  | point (g : EsriPoint)
  | multiPoint (g : EsriMultiPoint)
  | polyline (g : EsriPolyline)
  | polygon (g : EsriPolygon)
deriving DecidableEq

/-- `impl Into<EsriCoord<2>> for &Coord`: copy the two components
verbatim. -/
def coordInto (c : Coord) : EsriCoord := ⟨c.x, c.y⟩

/-- `impl Into<EsriLineString<2>> for &LineString`: map every coordinate
through the coordinate conversion, preserving order. -/
def lineStringInto (l : LineString) : EsriLineString := l.map coordInto

/-- `impl Into<EsriPoint> for &Point`: copy x and y; z, m and the spatial
reference stay absent. -/
def pointInto (p : Point) : EsriPoint :=
  { x := p.coord.x, y := p.coord.y, z := none, m := none
    spatialReference := none }

/-- `impl Into<EsriMultiPoint<2>> for &MultiPoint`: convert every
constituent coordinate in order; flags stay absent. -/
def multiPointInto (mp : MultiPoint) : EsriMultiPoint :=
  { hasZ := none, hasM := none
    points := mp.map (fun pt => coordInto pt.coord)
    spatialReference := none }

/-- `impl Into<EsriPolyline<2>> for &Line`: a single two-vertex path. -/
def lineIntoPolyline (l : Line) : EsriPolyline :=
  { hasZ := none, hasM := none
    paths := [[coordInto l.start, coordInto l.end_]]
    spatialReference := none }

/-- `impl Into<EsriPolyline<2>> for &LineString`: a single path holding
all vertices in original order. -/
def lineStringIntoPolyline (l : LineString) : EsriPolyline :=
  { hasZ := none, hasM := none
    paths := [lineStringInto l]
    spatialReference := none }

/-- `impl Into<EsriPolyline<2>> for &MultiLineString`: one path per
constituent line string, in the given order. -/
def multiLineStringInto (mls : MultiLineString) : EsriPolyline :=
  { hasZ := none, hasM := none
    paths := mls.map lineStringInto
    spatialReference := none }

/-- `impl Into<EsriPolygon<2>> for &Polygon`: reorient with
`Direction::Reversed`, then collect the rings (exterior first, interiors
after) through the line-string conversion. -/
def polygonInto (p : Polygon) : EsriPolygon :=
  { hasZ := none, hasM := none
    rings := (ringsOf (orientPolygonReversed p)).map lineStringInto
    spatialReference := none }

/-- `impl Into<EsriPolygon<2>> for &MultiPolygon`: reorient every
constituent polygon with `Direction::Reversed`, then collect all rings of
all polygons, in polygon order, into one flat ring list. -/
def multiPolygonInto (mp : MultiPolygon) : EsriPolygon :=
  { hasZ := none, hasM := none
    rings := ((mp.map orientPolygonReversed).flatMap ringsOf).map lineStringInto
    spatialReference := none }

/-- `impl Into<EsriPolygon<2>> for &Triangle`: degrade to a closed
three-sided polygon, then convert. -/
def triangleInto (t : Triangle) : EsriPolygon :=
  polygonInto (triangleToPolygon t)

/-- `impl Into<EsriPolygon<2>> for &Rect`: degrade to a closed four-sided
polygon, then convert. -/
def rectInto (r : Rect) : EsriPolygon :=
  polygonInto (rectToPolygon r)

/-- `impl TryInto<EsriGeometry<2>> for &Geometry`: the top-level dispatch.
Every supported variant succeeds with the corresponding target variant;
a geometry collection fails with the designated error value `None` (of
Rust type `Option<()>`). -/
def geometryTryInto : Geometry → Except (Option Unit) EsriGeometry
  | Geometry.point g => Except.ok (EsriGeometry.point (pointInto g))
  | Geometry.multiPoint g => Except.ok (EsriGeometry.multiPoint (multiPointInto g))
  | Geometry.line g => Except.ok (EsriGeometry.polyline (lineIntoPolyline g))
  | Geometry.lineString g => Except.ok (EsriGeometry.polyline (lineStringIntoPolyline g))
  | Geometry.multiLineString g => Except.ok (EsriGeometry.polyline (multiLineStringInto g))
  | Geometry.polygon g => Except.ok (EsriGeometry.polygon (polygonInto g))
  | Geometry.multiPolygon g => Except.ok (EsriGeometry.polygon (multiPolygonInto g))
  | Geometry.rect g => Except.ok (EsriGeometry.polygon (rectInto g))
  | Geometry.triangle g => Except.ok (EsriGeometry.polygon (triangleInto g))
  | Geometry.geometryCollection _ => Except.error none

/-- The `impl_into!` macro instantiated at `Coord`: the by-value
conversion delegates to the by-reference one. -/
def coordIntoOwned (c : Coord) : EsriCoord := coordInto c

/-- `impl_into!` at `LineString` (target `EsriLineString<2>`). -/
def lineStringIntoOwned (l : LineString) : EsriLineString := lineStringInto l

/-- `impl_into!` at `Point`. -/
def pointIntoOwned (p : Point) : EsriPoint := pointInto p

/-- `impl_into!` at `MultiPoint`. -/
def multiPointIntoOwned (mp : MultiPoint) : EsriMultiPoint := multiPointInto mp

/-- `impl_into!` at `Line`. -/
def lineIntoPolylineOwned (l : Line) : EsriPolyline := lineIntoPolyline l

/-- `impl_into!` at `LineString` (target `EsriPolyline<2>`). -/
def lineStringIntoPolylineOwned (l : LineString) : EsriPolyline :=
  lineStringIntoPolyline l

/-- `impl_into!` at `MultiLineString`. -/
def multiLineStringIntoOwned (mls : MultiLineString) : EsriPolyline :=
  multiLineStringInto mls

/-- `impl_into!` at `Polygon`. -/
def polygonIntoOwned (p : Polygon) : EsriPolygon := polygonInto p

/-- `impl_into!` at `MultiPolygon`. -/
def multiPolygonIntoOwned (mp : MultiPolygon) : EsriPolygon := multiPolygonInto mp

/-- `impl_into!` at `Triangle`. -/
def triangleIntoOwned (t : Triangle) : EsriPolygon := triangleInto t

/-- `impl_into!` at `Rect`. -/
def rectIntoOwned (r : Rect) : EsriPolygon := rectInto r

/-- `impl TryInto<EsriGeometry<2>> for Geometry`: the by-value dispatch
delegates to the by-reference one. -/
def geometryTryIntoOwned (g : Geometry) : Except (Option Unit) EsriGeometry :=
  geometryTryInto g

/-- The winding opposite to a given one. -/
def oppositeW : Winding → Winding
  | Winding.cw => Winding.ccw
  | Winding.ccw => Winding.cw

/-- Shoelace term lifted to optional coordinates (absent endpoint
contributes nothing); used to state how `signedArea2` splits. -/
def crossO : Option Coord → Option Coord → ℚ
  | some a, some b => cross a b
  | some _, none => 0
  | none, _ => 0

/-- Shoelace term of a pair of target-model coordinates. -/
def crossE (a b : EsriCoord) : ℚ := a.c0 * b.c1 - b.c0 * a.c1

/-- Twice the signed area of an emitted (target-model) ring. -/
def signedArea2E : List EsriCoord → ℚ
  | a :: b :: rest => crossE a b + signedArea2E (b :: rest)
  | _ => 0

/-- Winding direction of an emitted (target-model) ring. -/
def windingOrderE (l : List EsriCoord) : Option Winding :=
  if 0 < signedArea2E l then some Winding.ccw
  else if signedArea2E l < 0 then some Winding.cw
  else none

/-- The specification's multipolygon algorithm stated in its own words:
apply the per-polygon conversion independently to every constituent
polygon, then concatenate the resulting ring lists, in polygon order, into
one flat ring list on a single target polygon. -/
def multiPolygonIntoSpec (mp : MultiPolygon) : EsriPolygon :=
  { hasZ := none, hasM := none
    rings := mp.flatMap (fun p => (polygonInto p).rings)
    spatialReference := none }

/-- Whether a source geometry is a heterogeneous geometry collection, the
single rejected variant of the dispatch. -/
def isGeometryCollection : Geometry → Bool
  | Geometry.geometryCollection _ => true
  | _ => false

/-- The dispatch table of the specification (§4.2): which target variant
each supported source variant must map to. -/
def expectedVariantMatches : Geometry → EsriGeometry → Bool
  | Geometry.point _, EsriGeometry.point _ => true
  | Geometry.multiPoint _, EsriGeometry.multiPoint _ => true
  | Geometry.line _, EsriGeometry.polyline _ => true
  | Geometry.lineString _, EsriGeometry.polyline _ => true
  | Geometry.multiLineString _, EsriGeometry.polyline _ => true
  | Geometry.polygon _, EsriGeometry.polygon _ => true
  | Geometry.multiPolygon _, EsriGeometry.polygon _ => true
  | Geometry.rect _, EsriGeometry.polygon _ => true
  | Geometry.triangle _, EsriGeometry.polygon _ => true
  | _, _ => false

theorem oppositeW_oppositeW (w : Winding) : oppositeW (oppositeW w) = w := by
  cases w <;> rfl

theorem crossO_comm (x y : Option Coord) : crossO x y = - crossO y x := by
  cases x <;> cases y <;> simp [crossO, cross]

theorem signedArea2_cons (a : Coord) (l : List Coord) :
    signedArea2 (a :: l) = crossO (some a) l.head? + signedArea2 l := by
  cases l <;> simp [signedArea2, crossO]

theorem signedArea2_append (l₁ l₂ : List Coord) :
    signedArea2 (l₁ ++ l₂) =
      signedArea2 l₁ + crossO l₁.getLast? l₂.head? + signedArea2 l₂ := by
  induction l₁ with
  | nil => simp [signedArea2, crossO]
  | cons a l₁ ih =>
    rw [List.cons_append, signedArea2_cons, ih, signedArea2_cons a l₁]
    cases l₁ with
    | nil => cases l₂ <;> simp [crossO, signedArea2]
    | cons b t => simp [List.getLast?_cons_cons]; ring

theorem signedArea2_reverse (l : List Coord) :
    signedArea2 l.reverse = - signedArea2 l := by
  induction l with
  | nil => simp [signedArea2]
  | cons a l ih =>
    rw [List.reverse_cons, signedArea2_append, ih, List.getLast?_reverse,
      signedArea2_cons a l]
    simp only [List.head?_cons]
    rw [crossO_comm l.head? (some a)]
    have h0 : signedArea2 [a] = 0 := rfl
    rw [h0]
    ring

theorem windingOrder_reverse (l : List Coord) :
    windingOrder l.reverse = (windingOrder l).map oppositeW := by
  unfold windingOrder
  rw [signedArea2_reverse]
  rcases lt_trichotomy (signedArea2 l) 0 with h | h | h
  · rw [if_pos (by linarith : (0:ℚ) < -signedArea2 l),
      if_neg (by linarith : ¬ (0:ℚ) < signedArea2 l), if_pos h]
    rfl
  · rw [h]
    norm_num
  · rw [if_neg (by linarith : ¬ (0:ℚ) < -signedArea2 l),
      if_pos (by linarith : -signedArea2 l < 0), if_pos h]
    rfl

theorem makeWinding_eq_self (w : Winding) (l : List Coord)
    (h : windingOrder l = some w) : makeWinding w l = l := by
  simp [makeWinding, h]

theorem makeWinding_eq_rev (w : Winding) (l : List Coord)
    (h : windingOrder l = some (oppositeW w)) : makeWinding w l = l.reverse := by
  cases w <;> simp [makeWinding, h, oppositeW]

theorem makeWinding_of_none (w : Winding) (l : List Coord)
    (h : windingOrder l = none) : makeWinding w l = l := by
  simp [makeWinding, h]

theorem makeWinding_eq_or (w : Winding) (l : List Coord) :
    makeWinding w l = l ∨ makeWinding w l = l.reverse := by
  unfold makeWinding
  cases h : windingOrder l with
  | none => exact Or.inl rfl
  | some w' =>
    by_cases hw : w' = w
    · simp [hw]
    · simp [hw]

theorem winding_ne_eq_opposite {w w' : Winding} (h : w' ≠ w) : w' = oppositeW w := by
  cases w <;> cases w' <;> simp_all [oppositeW]

theorem windingOrder_makeWinding (w : Winding) (l : List Coord)
    (h : windingOrder l ≠ none) : windingOrder (makeWinding w l) = some w := by
  cases hwo : windingOrder l with
  | none => exact absurd hwo h
  | some w' =>
    by_cases hw : w' = w
    · subst hw
      rw [makeWinding_eq_self _ _ hwo, hwo]
    · rw [winding_ne_eq_opposite hw] at hwo
      rw [makeWinding_eq_rev _ _ hwo, windingOrder_reverse, hwo]
      simp [oppositeW_oppositeW]

theorem makeWinding_reverse_eq (w : Winding) (l : List Coord)
    (h : windingOrder l ≠ none) : makeWinding w l.reverse = makeWinding w l := by
  cases hwo : windingOrder l with
  | none => exact absurd hwo h
  | some w' =>
    have hrev : windingOrder l.reverse = some (oppositeW w') := by
      rw [windingOrder_reverse, hwo]
      rfl
    by_cases hw : w' = w
    · subst hw
      rw [makeWinding_eq_self _ _ hwo, makeWinding_eq_rev _ _ hrev,
        List.reverse_reverse]
    · rw [winding_ne_eq_opposite hw] at hwo hrev
      rw [makeWinding_eq_rev _ _ hwo, makeWinding_eq_self _ _ (by
        rw [hrev, oppositeW_oppositeW])]

theorem mem_makeWinding {c : Coord} {w : Winding} {l : List Coord} :
    c ∈ makeWinding w l ↔ c ∈ l := by
  rcases makeWinding_eq_or w l with h | h
  · rw [h]
  · rw [h]
    simp

theorem crossE_coordInto (a b : Coord) :
    crossE (coordInto a) (coordInto b) = cross a b := rfl

theorem signedArea2E_lineStringInto :
    ∀ l : LineString, signedArea2E (lineStringInto l) = signedArea2 l
  | [] => rfl
  | [_] => rfl
  | a :: b :: rest => by
    have ih := signedArea2E_lineStringInto (b :: rest)
    simp only [lineStringInto, List.map_cons] at ih ⊢
    show crossE (coordInto a) (coordInto b) + signedArea2E _ = cross a b + signedArea2 _
    rw [crossE_coordInto, ih]

theorem windingOrderE_lineStringInto (l : LineString) :
    windingOrderE (lineStringInto l) = windingOrder l := by
  unfold windingOrderE windingOrder
  rw [signedArea2E_lineStringInto]

theorem forall₂_getElem? {α β : Type} {R : α → β → Prop} {l : List α}
    {m : List β} (h : List.Forall₂ R l m) :
    ∀ (i : ℕ) (x : α), l[i]? = some x → ∃ y, m[i]? = some y ∧ R x y := by
  induction h with
  | nil =>
    intro i x hx
    simp at hx
  | cons hr _ ih =>
    intro i x hx
    cases i with
    | zero =>
      simp only [List.getElem?_cons_zero, Option.some.injEq] at hx
      subst hx
      exact ⟨_, by simp, hr⟩
    | succ n =>
      simp only [List.getElem?_cons_succ] at hx ⊢
      exact ih n x hx

theorem forall₂_map_self {α : Type} {R : α → α → Prop} (f : α → α)
    (h : ∀ a, R a (f a)) : ∀ l : List α, List.Forall₂ R l (l.map f)
  | [] => List.Forall₂.nil
  | a :: l => List.Forall₂.cons (h a) (forall₂_map_self f h l)

theorem forall₂_flatMap {α β γ : Type} {R : β → γ → Prop} (f : α → List β)
    (g : α → List γ) (h : ∀ a, List.Forall₂ R (f a) (g a)) :
    ∀ l : List α, List.Forall₂ R (l.flatMap f) (l.flatMap g) := by
  intro l
  induction l with
  | nil => exact List.Forall₂.nil
  | cons a l ih =>
    rw [List.flatMap_cons, List.flatMap_cons]
    exact List.rel_append (h a) ih

/-- Each ring of a reoriented polygon is the corresponding input ring,
either unchanged or reversed. -/
theorem forall₂_ringsOf_orient (p : Polygon) :
    List.Forall₂ (fun r r' => r' = r ∨ r' = r.reverse)
      (ringsOf p) (ringsOf (orientPolygonReversed p)) :=
  List.Forall₂.cons (makeWinding_eq_or Winding.cw p.exterior)
    (forall₂_map_self _ (fun r => makeWinding_eq_or Winding.ccw r) p.interiors)

/-- An emitted ring that is an input ring or its reversal keeps the shared
endpoint of a closed input ring at both ends. -/
theorem endpoints_of_rel {r r' : LineString}
    (hrel : r' = r ∨ r' = r.reverse) {a : Coord} (h1 : r.head? = some a)
    (h2 : r.getLast? = some a) :
    (lineStringInto r').head? = some (coordInto a) ∧
      (lineStringInto r').getLast? = some (coordInto a) := by
  rcases hrel with rfl | rfl
  · simp [lineStringInto, h1, h2]
  · simp [lineStringInto, h1, h2]

/-- The rings emitted for a polygon, written out: the conditionally
reversed exterior first, then the conditionally reversed interiors. -/
theorem polygonInto_rings (p : Polygon) :
    (polygonInto p).rings =
      lineStringInto (makeWinding Winding.cw p.exterior) ::
        p.interiors.map (fun r => lineStringInto (makeWinding Winding.ccw r)) := by
  simp [polygonInto, ringsOf, orientPolygonReversed, List.map_map,
    Function.comp]

theorem polygonInto_rings_length (p : Polygon) :
    (polygonInto p).rings.length = 1 + p.interiors.length := by
  rw [polygonInto_rings]
  simp [Nat.add_comm]

theorem multiPolygonInto_cons (p : Polygon) (mp : MultiPolygon) :
    (multiPolygonInto (p :: mp)).rings =
      (polygonInto p).rings ++ (multiPolygonInto mp).rings := by
  simp [multiPolygonInto, polygonInto, List.flatMap_cons]

/-- Every ring of a reoriented polygon draws its coordinates from the
corresponding source polygon's rings. -/
theorem mem_orient_rings {p : Polygon} {r' : LineString}
    (h : r' ∈ ringsOf (orientPolygonReversed p)) :
    ∃ r, r ∈ ringsOf p ∧ ∀ c, c ∈ r' → c ∈ r := by
  unfold ringsOf
  unfold ringsOf orientPolygonReversed at h
  simp only [List.mem_cons, List.mem_map] at h
  rcases h with rfl | ⟨r, hr, rfl⟩
  · exact ⟨p.exterior, List.mem_cons_self _ _,
      fun c hc => mem_makeWinding.1 hc⟩
  · exact ⟨r, List.mem_cons_of_mem _ hr, fun c hc => mem_makeWinding.1 hc⟩

/-- C4: ring count preservation.  A single polygon converts to 1 + its
interior-ring count rings; a multipolygon converts to the sum of
(1 + interior-ring count) over its constituent polygons, with the rings of
earlier polygons appearing before those of later polygons. -/
theorem c4_ring_count :
    (∀ p : Polygon, (polygonInto p).rings.length = 1 + p.interiors.length) ∧
    (∀ mp : MultiPolygon,
      (multiPolygonInto mp).rings.length =
        (mp.map (fun p => 1 + p.interiors.length)).sum) ∧
    ∀ (p : Polygon) (mp : MultiPolygon),
      (multiPolygonInto (p :: mp)).rings =
        (polygonInto p).rings ++ (multiPolygonInto mp).rings := by
  refine ⟨polygonInto_rings_length, ?_, multiPolygonInto_cons⟩
  intro mp
  induction mp with
  | nil => rfl
  | cons p mp ih =>
    rw [multiPolygonInto_cons, List.length_append, polygonInto_rings_length,
      ih, List.map_cons, List.sum_cons]

/-- C5: the dispatch fails with the designated failure value (`None`) for
every geometry collection, and succeeds for every value of every other
source variant, producing the target variant given by the dispatch
table. -/
theorem c5_dispatch_totality :
    (∀ gs : List Geometry,
      geometryTryInto (Geometry.geometryCollection gs) = Except.error none) ∧
    ∀ g : Geometry, isGeometryCollection g = false →
      ((geometryTryInto g).toOption.map (expectedVariantMatches g)) =
        some true := by
  refine ⟨fun gs => rfl, ?_⟩
  intro g hg
  cases g with
  | point g => rfl
  | line g => rfl
  | lineString g => rfl
  | polygon g => rfl
  | multiPoint g => rfl
  | multiLineString g => rfl
  | multiPolygon g => rfl
  | geometryCollection gs => exact absurd hg (by simp [isGeometryCollection])
  | rect g => rfl
  | triangle g => rfl

/-- C5 witness: a concrete point passes the dispatch and lands on the
point target variant; a collection is not involved. -/
theorem c5_dispatch_totality_witness :
    isGeometryCollection (Geometry.point ⟨⟨1, 2⟩⟩) = false ∧
    ((geometryTryInto (Geometry.point ⟨⟨1, 2⟩⟩)).toOption.map
      (expectedVariantMatches (Geometry.point ⟨⟨1, 2⟩⟩))) = some true :=
  ⟨rfl, c5_dispatch_totality.2 (Geometry.point ⟨⟨1, 2⟩⟩) rfl⟩

/-- C7: the whole-multipolygon conversion implemented by the code equals
the specification's per-polygon algorithm followed by concatenation of the
resulting ring lists in polygon order. -/
theorem c7_multipolygon_refinement (mp : MultiPolygon) :
    multiPolygonInto mp = multiPolygonIntoSpec mp := by
  unfold multiPolygonInto multiPolygonIntoSpec
  congr 1
  rw [List.flatMap_map, List.map_flatMap]
  rfl

/-- C8: coordinate fidelity.  Every coordinate emitted by any conversion
equals some source coordinate, first component the source x, second the
source y; no arithmetic is applied. -/
theorem c8_coordinate_fidelity :
    (∀ c : Coord, (coordInto c).c0 = c.x ∧ (coordInto c).c1 = c.y) ∧
    (∀ (ls : LineString) (e : EsriCoord), e ∈ lineStringInto ls →
      ∃ c, c ∈ ls ∧ e.c0 = c.x ∧ e.c1 = c.y) ∧
    (∀ (mp : MultiPoint) (e : EsriCoord), e ∈ (multiPointInto mp).points →
      ∃ pt, pt ∈ mp ∧ e.c0 = pt.coord.x ∧ e.c1 = pt.coord.y) ∧
    (∀ (mls : MultiLineString) (path : EsriLineString) (e : EsriCoord),
      path ∈ (multiLineStringInto mls).paths → e ∈ path →
      ∃ c, (∃ ls, ls ∈ mls ∧ c ∈ ls) ∧ e.c0 = c.x ∧ e.c1 = c.y) ∧
    (∀ (p : Polygon) (ring : EsriLineString) (e : EsriCoord),
      ring ∈ (polygonInto p).rings → e ∈ ring →
      ∃ c, c ∈ (ringsOf p).flatten ∧ e.c0 = c.x ∧ e.c1 = c.y) ∧
    ∀ (mp : MultiPolygon) (ring : EsriLineString) (e : EsriCoord),
      ring ∈ (multiPolygonInto mp).rings → e ∈ ring →
      ∃ c, c ∈ (mp.flatMap ringsOf).flatten ∧ e.c0 = c.x ∧ e.c1 = c.y := by
  refine ⟨fun c => ⟨rfl, rfl⟩, ?_, ?_, ?_, ?_, ?_⟩
  · intro ls e he
    rcases List.mem_map.1 he with ⟨c, hc, rfl⟩
    exact ⟨c, hc, rfl, rfl⟩
  · intro mp e he
    rcases List.mem_map.1 he with ⟨pt, hpt, rfl⟩
    exact ⟨pt, hpt, rfl, rfl⟩
  · intro mls path e hpath he
    rcases List.mem_map.1 hpath with ⟨ls, hls, rfl⟩
    rcases List.mem_map.1 he with ⟨c, hc, rfl⟩
    exact ⟨c, ⟨ls, hls, hc⟩, rfl, rfl⟩
  · intro p ring e hring he
    rcases List.mem_map.1 hring with ⟨r', hr', rfl⟩
    rcases List.mem_map.1 he with ⟨c, hc, rfl⟩
    rcases mem_orient_rings hr' with ⟨r, hr, hsub⟩
    exact ⟨c, List.mem_flatten_of_mem hr (hsub c hc), rfl, rfl⟩
  · intro mp ring e hring he
    rcases List.mem_map.1 hring with ⟨r', hr', rfl⟩
    rcases List.mem_map.1 he with ⟨c, hc, rfl⟩
    rcases List.mem_flatMap.1 hr' with ⟨q, hq, hrq⟩
    rcases List.mem_map.1 hq with ⟨p0, hp0, rfl⟩
    rcases mem_orient_rings hrq with ⟨r, hr, hsub⟩
    exact ⟨c, List.mem_flatten_of_mem (List.mem_flatMap_of_mem hp0 hr)
      (hsub c hc), rfl, rfl⟩

/-- C8 witness: the single emitted coordinate of a one-point line string
matches the source coordinate componentwise. -/
theorem c8_coordinate_fidelity_witness :
    (⟨3, 4⟩ : EsriCoord) ∈ lineStringInto [(⟨3, 4⟩ : Coord)] ∧
    ∃ c, c ∈ [(⟨3, 4⟩ : Coord)] ∧ (⟨3, 4⟩ : EsriCoord).c0 = c.x ∧
      (⟨3, 4⟩ : EsriCoord).c1 = c.y :=
  ⟨List.mem_singleton.2 rfl,
    c8_coordinate_fidelity.2.1 [⟨3, 4⟩] ⟨3, 4⟩ (List.mem_singleton.2 rfl)⟩

/-- C9: a multi line string converts to one path per constituent line
string, in order, each path holding exactly that line string's vertices in
their original order. -/
theorem c9_multilinestring_paths (mls : MultiLineString) :
    (multiLineStringInto mls).paths.length = mls.length ∧
    ∀ (i : ℕ) (ls : LineString), mls[i]? = some ls →
      (multiLineStringInto mls).paths[i]? = some (lineStringInto ls) ∧
      (lineStringInto ls).length = ls.length ∧
      ∀ j : ℕ, (lineStringInto ls)[j]? = (ls[j]?).map coordInto := by
  refine ⟨by simp [multiLineStringInto], ?_⟩
  intro i ls h
  refine ⟨?_, by simp [lineStringInto], ?_⟩
  · simp [multiLineStringInto, h]
  · intro j
    simp [lineStringInto]

/-- C9 witness: the specification's example, a multi line string with
paths of 2 and 3 vertices. -/
theorem c9_multilinestring_paths_witness :
    ([[⟨0, 0⟩, ⟨1, 0⟩], [⟨0, 0⟩, ⟨1, 1⟩, ⟨2, 0⟩]] : MultiLineString)[0]? =
      some [⟨0, 0⟩, ⟨1, 0⟩] ∧
    ([[⟨0, 0⟩, ⟨1, 0⟩], [⟨0, 0⟩, ⟨1, 1⟩, ⟨2, 0⟩]] : MultiLineString)[1]? =
      some [⟨0, 0⟩, ⟨1, 1⟩, ⟨2, 0⟩] ∧
    (multiLineStringInto [[⟨0, 0⟩, ⟨1, 0⟩], [⟨0, 0⟩, ⟨1, 1⟩, ⟨2, 0⟩]]).paths.length = 2 ∧
    (multiLineStringInto [[⟨0, 0⟩, ⟨1, 0⟩], [⟨0, 0⟩, ⟨1, 1⟩, ⟨2, 0⟩]]).paths[0]? =
      some (lineStringInto [⟨0, 0⟩, ⟨1, 0⟩]) ∧
    (lineStringInto [(⟨0, 0⟩ : Coord), ⟨1, 0⟩]).length = 2 ∧
    (multiLineStringInto [[⟨0, 0⟩, ⟨1, 0⟩], [⟨0, 0⟩, ⟨1, 1⟩, ⟨2, 0⟩]]).paths[1]? =
      some (lineStringInto [⟨0, 0⟩, ⟨1, 1⟩, ⟨2, 0⟩]) ∧
    (lineStringInto [(⟨0, 0⟩ : Coord), ⟨1, 1⟩, ⟨2, 0⟩]).length = 3 := by
  have h := c9_multilinestring_paths
    ([[⟨0, 0⟩, ⟨1, 0⟩], [⟨0, 0⟩, ⟨1, 1⟩, ⟨2, 0⟩]] : MultiLineString)
  exact ⟨rfl, rfl, h.1.trans rfl,
    (h.2 0 [⟨0, 0⟩, ⟨1, 0⟩] rfl).1,
    ((h.2 0 [⟨0, 0⟩, ⟨1, 0⟩] rfl).2.1).trans rfl,
    (h.2 1 [⟨0, 0⟩, ⟨1, 1⟩, ⟨2, 0⟩] rfl).1,
    ((h.2 1 [⟨0, 0⟩, ⟨1, 1⟩, ⟨2, 0⟩] rfl).2.1).trans rfl⟩

/-- C10: every by-value conversion delegates to, and therefore agrees
with, the corresponding by-reference conversion, for all ten source types
and the top-level dispatch. -/
theorem c10_owned_delegation :
    (∀ c : Coord, coordIntoOwned c = coordInto c) ∧
    (∀ l : LineString, lineStringIntoOwned l = lineStringInto l) ∧
    (∀ p : Point, pointIntoOwned p = pointInto p) ∧
    (∀ mp : MultiPoint, multiPointIntoOwned mp = multiPointInto mp) ∧
    (∀ l : Line, lineIntoPolylineOwned l = lineIntoPolyline l) ∧
    (∀ l : LineString,
      lineStringIntoPolylineOwned l = lineStringIntoPolyline l) ∧
    (∀ m : MultiLineString,
      multiLineStringIntoOwned m = multiLineStringInto m) ∧
    (∀ p : Polygon, polygonIntoOwned p = polygonInto p) ∧
    (∀ m : MultiPolygon, multiPolygonIntoOwned m = multiPolygonInto m) ∧
    (∀ t : Triangle, triangleIntoOwned t = triangleInto t) ∧
    (∀ r : Rect, rectIntoOwned r = rectInto r) ∧
    ∀ g : Geometry, geometryTryIntoOwned g = geometryTryInto g :=
  ⟨fun _ => rfl, fun _ => rfl, fun _ => rfl, fun _ => rfl, fun _ => rfl,
    fun _ => rfl, fun _ => rfl, fun _ => rfl, fun _ => rfl, fun _ => rfl,
    fun _ => rfl, fun _ => rfl⟩

/-- C1 counterexample: a closed but degenerate exterior ring (all vertices
collinear, zero signed area) is emitted unchanged, and the emitted first
ring has no winding direction — in particular it is not wound clockwise,
refuting the claim for this polygon. -/
theorem c1_counterexample :
    ((polygonInto ⟨[⟨0, 0⟩, ⟨1, 1⟩, ⟨2, 2⟩, ⟨0, 0⟩], []⟩).rings.map
      windingOrderE) = [none] ∧
    (none : Option Winding) ≠ some Winding.cw := by
  constructor
  · have h : windingOrder [⟨0, 0⟩, ⟨1, 1⟩, ⟨2, 2⟩, ⟨0, 0⟩] = none := by
      norm_num [windingOrder, signedArea2, cross]
    rw [polygonInto_rings]
    dsimp only
    simp only [List.map_cons, List.map_nil]
    rw [makeWinding_of_none _ _ h, windingOrderE_lineStringInto, h]
  · simp

/-- C1 amended: every input ring that has a determinate winding direction
(nonzero signed area) is emitted with the target winding — the first
emitted ring clockwise when the exterior ring has a winding, and the ring
emitted for each interior ring counter-clockwise when that interior ring
has a winding — regardless of which winding the input ring had. -/
theorem c1_winding_normalized (p : Polygon) :
    (windingOrder p.exterior ≠ none →
      ((polygonInto p).rings.head?.map windingOrderE) =
        some (some Winding.cw)) ∧
    ∀ (i : ℕ) (r : LineString), p.interiors[i]? = some r →
      windingOrder r ≠ none →
      ((polygonInto p).rings[i + 1]?.map windingOrderE) =
        some (some Winding.ccw) := by
  constructor
  · intro h
    rw [polygonInto_rings]
    simp only [List.head?_cons, Option.map_some']
    rw [windingOrderE_lineStringInto, windingOrder_makeWinding _ _ h]
  · intro i r hir h
    rw [polygonInto_rings]
    simp only [List.getElem?_cons_succ, List.getElem?_map, hir,
      Option.map_some']
    rw [windingOrderE_lineStringInto, windingOrder_makeWinding _ _ h]

/-- C1 witness: a counter-clockwise square exterior with one
counter-clockwise square hole; the emitted exterior is clockwise and the
emitted hole counter-clockwise. -/
theorem c1_winding_normalized_witness :
    windingOrder [⟨0, 0⟩, ⟨4, 0⟩, ⟨4, 4⟩, ⟨0, 4⟩, ⟨0, 0⟩] ≠ none ∧
    windingOrder [⟨1, 1⟩, ⟨2, 1⟩, ⟨2, 2⟩, ⟨1, 2⟩, ⟨1, 1⟩] ≠ none ∧
    ((polygonInto ⟨[⟨0, 0⟩, ⟨4, 0⟩, ⟨4, 4⟩, ⟨0, 4⟩, ⟨0, 0⟩],
        [[⟨1, 1⟩, ⟨2, 1⟩, ⟨2, 2⟩, ⟨1, 2⟩, ⟨1, 1⟩]]⟩).rings.head?.map
      windingOrderE) = some (some Winding.cw) ∧
    ((polygonInto ⟨[⟨0, 0⟩, ⟨4, 0⟩, ⟨4, 4⟩, ⟨0, 4⟩, ⟨0, 0⟩],
        [[⟨1, 1⟩, ⟨2, 1⟩, ⟨2, 2⟩, ⟨1, 2⟩, ⟨1, 1⟩]]⟩).rings[1]?.map
      windingOrderE) = some (some Winding.ccw) := by
  have h1 : windingOrder [⟨0, 0⟩, ⟨4, 0⟩, ⟨4, 4⟩, ⟨0, 4⟩, ⟨0, 0⟩] ≠ none := by
    have : windingOrder [⟨0, 0⟩, ⟨4, 0⟩, ⟨4, 4⟩, ⟨0, 4⟩, ⟨0, 0⟩] =
        some Winding.ccw := by
      norm_num [windingOrder, signedArea2, cross]
    rw [this]
    simp
  have h2 : windingOrder [⟨1, 1⟩, ⟨2, 1⟩, ⟨2, 2⟩, ⟨1, 2⟩, ⟨1, 1⟩] ≠ none := by
    have : windingOrder [⟨1, 1⟩, ⟨2, 1⟩, ⟨2, 2⟩, ⟨1, 2⟩, ⟨1, 1⟩] =
        some Winding.ccw := by
      norm_num [windingOrder, signedArea2, cross]
    rw [this]
    simp
  have h := c1_winding_normalized
    ⟨[⟨0, 0⟩, ⟨4, 0⟩, ⟨4, 4⟩, ⟨0, 4⟩, ⟨0, 0⟩],
      [[⟨1, 1⟩, ⟨2, 1⟩, ⟨2, 2⟩, ⟨1, 2⟩, ⟨1, 1⟩]]⟩
  exact ⟨h1, h2, h.1 h1,
    h.2 0 [⟨1, 1⟩, ⟨2, 1⟩, ⟨2, 2⟩, ⟨1, 2⟩, ⟨1, 1⟩] rfl h2⟩

/-- C2 counterexample: for a polygon whose closed exterior ring is
degenerate (zero signed area), converting the polygon and converting the
copy with the exterior's point order pre-reversed yield different target
polygons — neither ring is reoriented, so the two emitted ring lists
differ. -/
theorem c2_counterexample :
    (⟨[⟨0, 0⟩, ⟨3, 3⟩, ⟨1, 1⟩, ⟨0, 0⟩], []⟩ : Polygon).exterior =
      List.reverse (⟨[⟨0, 0⟩, ⟨1, 1⟩, ⟨3, 3⟩, ⟨0, 0⟩], []⟩ : Polygon).exterior ∧
    polygonInto ⟨[⟨0, 0⟩, ⟨3, 3⟩, ⟨1, 1⟩, ⟨0, 0⟩], []⟩ ≠
      polygonInto ⟨[⟨0, 0⟩, ⟨1, 1⟩, ⟨3, 3⟩, ⟨0, 0⟩], []⟩ := by
  refine ⟨rfl, ?_⟩
  intro hEq
  have h1 : windingOrder [⟨0, 0⟩, ⟨3, 3⟩, ⟨1, 1⟩, ⟨0, 0⟩] = none := by
    norm_num [windingOrder, signedArea2, cross]
  have h2 : windingOrder [⟨0, 0⟩, ⟨1, 1⟩, ⟨3, 3⟩, ⟨0, 0⟩] = none := by
    norm_num [windingOrder, signedArea2, cross]
  have hr := congrArg EsriPolygon.rings hEq
  rw [polygonInto_rings, polygonInto_rings] at hr
  dsimp only at hr
  rw [makeWinding_of_none _ _ h1, makeWinding_of_none _ _ h2] at hr
  norm_num [lineStringInto, coordInto] at hr

/-- C2 amended: for any polygon whose exterior ring has a determinate
winding direction (nonzero signed area), converting it and converting the
copy with the exterior's point order pre-reversed yield identical target
polygon values. -/
theorem c2_winding_determinism (p : Polygon)
    (h : windingOrder p.exterior ≠ none) :
    polygonInto ⟨p.exterior.reverse, p.interiors⟩ = polygonInto p := by
  unfold polygonInto orientPolygonReversed
  dsimp only
  rw [makeWinding_reverse_eq _ _ h]

/-- C2 witness: a counter-clockwise unit square and its reversal convert
to the same target polygon. -/
theorem c2_winding_determinism_witness :
    windingOrder [⟨0, 0⟩, ⟨1, 0⟩, ⟨1, 1⟩, ⟨0, 1⟩, ⟨0, 0⟩] ≠ none ∧
    polygonInto ⟨List.reverse [⟨0, 0⟩, ⟨1, 0⟩, ⟨1, 1⟩, ⟨0, 1⟩, ⟨0, 0⟩], []⟩ =
      polygonInto ⟨[⟨0, 0⟩, ⟨1, 0⟩, ⟨1, 1⟩, ⟨0, 1⟩, ⟨0, 0⟩], []⟩ := by
  have h : windingOrder [⟨0, 0⟩, ⟨1, 0⟩, ⟨1, 1⟩, ⟨0, 1⟩, ⟨0, 0⟩] ≠ none := by
    have : windingOrder [⟨0, 0⟩, ⟨1, 0⟩, ⟨1, 1⟩, ⟨0, 1⟩, ⟨0, 0⟩] =
        some Winding.ccw := by
      norm_num [windingOrder, signedArea2, cross]
    rw [this]
    simp
  exact ⟨h,
    c2_winding_determinism ⟨[⟨0, 0⟩, ⟨1, 0⟩, ⟨1, 1⟩, ⟨0, 1⟩, ⟨0, 0⟩], []⟩ h⟩

/-- C3: each ring is handled independently; a ring already in its target
winding (clockwise exterior, counter-clockwise interior) is emitted with
its coordinate sequence unchanged, and a ring in the opposite winding is
emitted in exact reverse order. -/
theorem c3_ring_emission (p : Polygon) :
    ((windingOrder p.exterior = some Winding.cw →
        (polygonInto p).rings.head? = some (lineStringInto p.exterior)) ∧
      (windingOrder p.exterior = some Winding.ccw →
        (polygonInto p).rings.head? =
          some (lineStringInto p.exterior.reverse))) ∧
    ∀ (i : ℕ) (r : LineString), p.interiors[i]? = some r →
      (windingOrder r = some Winding.ccw →
        (polygonInto p).rings[i + 1]? = some (lineStringInto r)) ∧
      (windingOrder r = some Winding.cw →
        (polygonInto p).rings[i + 1]? = some (lineStringInto r.reverse)) := by
  refine ⟨⟨?_, ?_⟩, ?_⟩
  · intro h
    rw [polygonInto_rings]
    simp only [List.head?_cons]
    rw [makeWinding_eq_self _ _ h]
  · intro h
    rw [polygonInto_rings]
    simp only [List.head?_cons]
    rw [makeWinding_eq_rev Winding.cw _ h]
  · intro i r hir
    constructor
    · intro h
      rw [polygonInto_rings]
      simp only [List.getElem?_cons_succ, List.getElem?_map, hir,
        Option.map_some']
      rw [makeWinding_eq_self _ _ h]
    · intro h
      rw [polygonInto_rings]
      simp only [List.getElem?_cons_succ, List.getElem?_map, hir,
        Option.map_some']
      rw [makeWinding_eq_rev Winding.ccw _ h]

/-- C3 witness: a counter-clockwise exterior is emitted reversed and a
clockwise interior is emitted reversed. -/
theorem c3_ring_emission_witness :
    windingOrder [⟨0, 0⟩, ⟨4, 0⟩, ⟨4, 4⟩, ⟨0, 4⟩, ⟨0, 0⟩] =
      some Winding.ccw ∧
    windingOrder [⟨1, 1⟩, ⟨1, 2⟩, ⟨2, 2⟩, ⟨2, 1⟩, ⟨1, 1⟩] = some Winding.cw ∧
    (polygonInto ⟨[⟨0, 0⟩, ⟨4, 0⟩, ⟨4, 4⟩, ⟨0, 4⟩, ⟨0, 0⟩],
        [[⟨1, 1⟩, ⟨1, 2⟩, ⟨2, 2⟩, ⟨2, 1⟩, ⟨1, 1⟩]]⟩).rings.head? =
      some (lineStringInto
        (List.reverse [⟨0, 0⟩, ⟨4, 0⟩, ⟨4, 4⟩, ⟨0, 4⟩, ⟨0, 0⟩])) ∧
    (polygonInto ⟨[⟨0, 0⟩, ⟨4, 0⟩, ⟨4, 4⟩, ⟨0, 4⟩, ⟨0, 0⟩],
        [[⟨1, 1⟩, ⟨1, 2⟩, ⟨2, 2⟩, ⟨2, 1⟩, ⟨1, 1⟩]]⟩).rings[1]? =
      some (lineStringInto
        (List.reverse [⟨1, 1⟩, ⟨1, 2⟩, ⟨2, 2⟩, ⟨2, 1⟩, ⟨1, 1⟩])) := by
  have h1 : windingOrder [⟨0, 0⟩, ⟨4, 0⟩, ⟨4, 4⟩, ⟨0, 4⟩, ⟨0, 0⟩] =
      some Winding.ccw := by
    norm_num [windingOrder, signedArea2, cross]
  have h2 : windingOrder [⟨1, 1⟩, ⟨1, 2⟩, ⟨2, 2⟩, ⟨2, 1⟩, ⟨1, 1⟩] =
      some Winding.cw := by
    norm_num [windingOrder, signedArea2, cross]
  have h := c3_ring_emission
    ⟨[⟨0, 0⟩, ⟨4, 0⟩, ⟨4, 4⟩, ⟨0, 4⟩, ⟨0, 0⟩],
      [[⟨1, 1⟩, ⟨1, 2⟩, ⟨2, 2⟩, ⟨2, 1⟩, ⟨1, 1⟩]]⟩
  exact ⟨h1, h2, h.1.2 h1,
    (h.2 0 [⟨1, 1⟩, ⟨1, 2⟩, ⟨2, 2⟩, ⟨2, 1⟩, ⟨1, 1⟩] rfl).2 h2⟩

/-- C6: closure preservation.  For every ring (of a polygon or of any
polygon of a multipolygon) whose first and last coordinates both equal
`a`, the corresponding emitted ring starts and ends with the conversion of
`a`. -/
theorem c6_closure_preservation :
    (∀ (p : Polygon) (i : ℕ) (r : LineString) (a : Coord),
      (ringsOf p)[i]? = some r → r.head? = some a → r.getLast? = some a →
      ((polygonInto p).rings[i]?.map (fun o => (o.head?, o.getLast?))) =
        some (some (coordInto a), some (coordInto a))) ∧
    ∀ (mp : MultiPolygon) (i : ℕ) (r : LineString) (a : Coord),
      (mp.flatMap ringsOf)[i]? = some r → r.head? = some a →
      r.getLast? = some a →
      ((multiPolygonInto mp).rings[i]?.map (fun o => (o.head?, o.getLast?))) =
        some (some (coordInto a), some (coordInto a)) := by
  constructor
  · intro p i r a hi h1 h2
    obtain ⟨r', hr', hrel⟩ := forall₂_getElem? (forall₂_ringsOf_orient p) i r hi
    have hidx : (polygonInto p).rings[i]? = some (lineStringInto r') := by
      show ((ringsOf (orientPolygonReversed p)).map lineStringInto)[i]? = _
      rw [List.getElem?_map, hr', Option.map_some']
    rw [hidx, Option.map_some']
    have hends := endpoints_of_rel hrel h1 h2
    rw [hends.1, hends.2]
  · intro mp i r a hi h1 h2
    have hf : List.Forall₂ (fun r r' => r' = r ∨ r' = r.reverse)
        (mp.flatMap ringsOf) ((mp.map orientPolygonReversed).flatMap ringsOf) := by
      rw [List.flatMap_map]
      exact forall₂_flatMap ringsOf
        (fun q => ringsOf (orientPolygonReversed q))
        (fun q => forall₂_ringsOf_orient q) mp
    obtain ⟨r', hr', hrel⟩ := forall₂_getElem? hf i r hi
    have hidx : (multiPolygonInto mp).rings[i]? = some (lineStringInto r') := by
      show (((mp.map orientPolygonReversed).flatMap ringsOf).map
        lineStringInto)[i]? = _
      rw [List.getElem?_map, hr', Option.map_some']
    rw [hidx, Option.map_some']
    have hends := endpoints_of_rel hrel h1 h2
    rw [hends.1, hends.2]

/-- C6 witness: the closed counter-clockwise unit square is reversed by
the conversion, and the emitted ring still starts and ends at the original
shared endpoint. -/
theorem c6_closure_preservation_witness :
    (ringsOf ⟨[⟨0, 0⟩, ⟨1, 0⟩, ⟨1, 1⟩, ⟨0, 1⟩, ⟨0, 0⟩], []⟩)[0]? =
      some [⟨0, 0⟩, ⟨1, 0⟩, ⟨1, 1⟩, ⟨0, 1⟩, ⟨0, 0⟩] ∧
    ([⟨0, 0⟩, ⟨1, 0⟩, ⟨1, 1⟩, ⟨0, 1⟩, (⟨0, 0⟩ : Coord)]).head? = some ⟨0, 0⟩ ∧
    ([⟨0, 0⟩, ⟨1, 0⟩, ⟨1, 1⟩, ⟨0, 1⟩, (⟨0, 0⟩ : Coord)]).getLast? =
      some ⟨0, 0⟩ ∧
    ((polygonInto ⟨[⟨0, 0⟩, ⟨1, 0⟩, ⟨1, 1⟩, ⟨0, 1⟩, ⟨0, 0⟩], []⟩).rings[0]?.map
      (fun o => (o.head?, o.getLast?))) =
        some (some (coordInto ⟨0, 0⟩), some (coordInto ⟨0, 0⟩)) :=
  ⟨rfl, rfl, rfl,
    c6_closure_preservation.1 ⟨[⟨0, 0⟩, ⟨1, 0⟩, ⟨1, 1⟩, ⟨0, 1⟩, ⟨0, 0⟩], []⟩
      0 [⟨0, 0⟩, ⟨1, 0⟩, ⟨1, 1⟩, ⟨0, 1⟩, ⟨0, 0⟩] ⟨0, 0⟩ rfl rfl rfl⟩

end SerdeEsri
